import Mathlib

/-!
# Verification of `verify.py` (VO_problemtools)

A shallow embedding of the judging engine of `verify.py`: the verdict data
model, the process runner `run_code`, the output verifier `verify_output`,
the judge/scorer `judge_exec`, and the test-discovery routine
`Subtask.walk_folder`.

Modelling conventions:
- Python floats are modelled as exact rationals (`ℚ`); the score arithmetic
  of the source (`correct * 1.0 / len(tests) * score`, `total_score += score`)
  is carried over literally.
- The environment a child process provides (its exit status, captured stdout
  bytes, whether the wall-clock limit expired, the two samples of the
  cumulative children-CPU-time counter taken by `run_code`) is passed in as
  explicit data (`RunOutcome`, `t0`, `t1`), since the embedding cannot spawn
  processes.
- The single scratch output file `./tmp/out` written by `run_code` and reused
  by every test of `judge_exec` is modelled as one byte-list state threaded
  through the judging fold.
- Exceptions that escape a function (the checker invocation failing with
  `FileNotFoundError`/`OSError`, which `verify_output` does not catch) are
  modelled with `Except Unit`.
-/

/-- Bytes captured from a child process's standard output. -/
abbrev Bytes := List Nat

/-- From the source, `EPS = 10 ** -6`: tolerance for comparing scores. -/
def EPS : ℚ := 1 / 1000000

/-- The `Verdict` enum of the source (`UNKNOWN = 0, AC, WA, TL, RE`). -/
inductive Verdict where
  | UNKNOWN
  | AC
  | WA
  | TL
  | RE
deriving DecidableEq, Repr

/-- Structure `TestVerdict`: verdict for a single test case, with the solution's
running time in seconds and the input file's name. -/
structure TestVerdict where
  verdict : Verdict
  exec_time : ℚ
  input_path : String
deriving DecidableEq, Repr

/-- Structure `SubtaskVerdict`: verdict for a single subtask: its id, the list of
`TestVerdict`s added by `add_test_verdict`, and the score set by
`set_score`. -/
structure SubtaskVerdict where
  subtask_id : Nat
  test_verdicts : List TestVerdict
  score : ℚ
deriving DecidableEq, Repr

/-- Structure `ProblemVerdict`: list of `SubtaskVerdict`s and the running
`total_score`. `__init__` starts both empty/zero. -/
structure ProblemVerdict where
  verdicts : List SubtaskVerdict
  total_score : ℚ
deriving DecidableEq, Repr

/-- Constructor `ProblemVerdict.__init__`: `verdicts = []`, `total_score = 0.0`. -/
def ProblemVerdict.empty : ProblemVerdict := ⟨[], 0⟩

/-- Method `ProblemVerdict.add_subtask_verdict`: appends the subtask verdict and
adds its score to `total_score`. -/
def ProblemVerdict.add_subtask_verdict (p : ProblemVerdict)
    (v : SubtaskVerdict) : ProblemVerdict :=
  ⟨p.verdicts ++ [v], p.total_score + v.score⟩

/-- What the operating system did for one `subprocess.run` call in
`run_code`: either the wall-clock timeout expired (`subprocess.TimeoutExpired`
was raised), or the child ran to completion with an exit code and captured
stdout bytes.  (The `except subprocess.CalledProcessError` branch of
`run_code` is unreachable: `subprocess.run` is called without `check=True`.) -/
inductive RunOutcome where
  | timedOut
  | exited (code : Int) (out : Bytes)
deriving DecidableEq, Repr

/-- Result of `subprocess.check_call` on the checker (or `diff`) command in
`verify_output`: the command ran and exited with `code`, or the invocation
itself failed (missing / non-executable binary raises `FileNotFoundError` /
`OSError`, which is NOT a `subprocess.CalledProcessError`). -/
inductive CheckCallResult where
  | exited (code : Int)
  | invokeFailure
deriving DecidableEq, Repr

/-- The environment of one test execution inside `judge_exec`: the input
file's name, what the child process did, the values of the cumulative
children-CPU-time counter (`get_children_process_elapsed_time`) at the two
sampling points of `run_code`, and what `subprocess.check_call` would do if
`verify_output` is invoked for this test. -/
structure TestEnv where
  input_name : String
  outcome : RunOutcome
  t0 : ℚ
  t1 : ℚ
  check : CheckCallResult
deriving DecidableEq, Repr

/-- Function `run_code(exec_path, input_path, output_path, time_limit_secs)`.
Returns the `TestVerdict` and the contents of the output file after the
call (`prevOut` being its contents before):
- on `TimeoutExpired`: verdict `TL`, sentinel time `-1`, and the
  `with open(...): stream.write(...)` block was never reached, so the
  output file keeps its previous contents;
- on completion: the captured stdout is written to the output file first,
  then `RE` is returned for a non-zero exit status and `UNKNOWN` (to be
  resolved by `verify_output`) for a zero one, both with the measured CPU
  time `t1 - t0` (difference of the two counter samples). -/
def run_code (e : TestEnv) (prevOut : Bytes) : TestVerdict × Bytes :=
  match e.outcome with
  | .timedOut => (⟨.TL, -1, e.input_name⟩, prevOut)
  | .exited code out =>
      if code ≠ 0 then (⟨.RE, e.t1 - e.t0, e.input_name⟩, out)
      else (⟨.UNKNOWN, e.t1 - e.t0, e.input_name⟩, out)

/-- Method `Problem.verify_output`: runs the checker (or `diff -w`) via
`subprocess.check_call` and returns `True` on a zero exit status; the
`except subprocess.CalledProcessError` clause returns `False` on a non-zero
exit status; any failure to invoke the command at all is not caught and
propagates as an exception (`.error ()`), aborting the judging run. -/
def verify_output (r : CheckCallResult) : Except Unit Bool :=
  match r with
  | .exited code => if code = 0 then .ok true else .ok false
  | .invokeFailure => .error ()

/-- One iteration of the test loop of `judge_exec`: run the code, and if the
raw verdict is `UNKNOWN` resolve it through `verify_output` (`AC` and
`correct_tests += 1` on `True`, `WA` on `False`).  Returns the recorded
`TestVerdict`, the increment to `correct_tests`, and the new contents of the
scratch output file. -/
def judgeTest (prevOut : Bytes) (e : TestEnv) :
    Except Unit (TestVerdict × Nat × Bytes) :=
  let r := run_code e prevOut
  if r.1.verdict = .UNKNOWN then
    match verify_output e.check with
    | .error u => .error u
    | .ok true => .ok ({ r.1 with verdict := .AC }, 1, r.2)
    | .ok false => .ok ({ r.1 with verdict := .WA }, 0, r.2)
  else
    .ok (r.1, 0, r.2)

/-- The `for test in subtask.tests` loop of `judge_exec`: judges each test
in order, threading the scratch output file (the single reused path
`./tmp/out`), collecting the `TestVerdict`s and `correct_tests`. -/
def judgeTests (prevOut : Bytes) : List TestEnv →
    Except Unit (List TestVerdict × Nat × Bytes)
  | [] => .ok ([], 0, prevOut)
  | e :: es =>
    match judgeTest prevOut e with
    | .error u => .error u
    | .ok (tv, k, b) =>
      match judgeTests b es with
      | .error u => .error u
      | .ok (tvs, ks, bs) => .ok (tv :: tvs, k + ks, bs)

/-- A subtask as consumed by `judge_exec`: its id, its point value
(`subtask.score`), and the environments of its tests in order. -/
structure SubtaskSpec where
  subtask_id : Nat
  score : ℚ
  envs : List TestEnv

/-- The body of the `for subtask in self.subtasks` loop of `judge_exec` for
one non-empty subtask: judge every test, then
`set_score(correct_tests * 1.0 / len(subtask.tests) * subtask.score)`. -/
def judgeSubtask (s : SubtaskSpec) (prevOut : Bytes) :
    Except Unit (SubtaskVerdict × Bytes) :=
  match judgeTests prevOut s.envs with
  | .error u => .error u
  | .ok (tvs, correct, b) =>
    .ok (⟨s.subtask_id, tvs, (correct : ℚ) / (s.envs.length : ℚ) * s.score⟩, b)

/-- The subtask fold of `judge_exec`: subtasks with zero tests are skipped
(`continue`), the others produce a `SubtaskVerdict` added to the
`ProblemVerdict` via `add_subtask_verdict`. -/
def judgeGo : List SubtaskSpec → ProblemVerdict → Bytes →
    Except Unit ProblemVerdict
  | [], acc, _ => .ok acc
  | s :: rest, acc, b =>
    if s.envs.length = 0 then judgeGo rest acc b
    else
      match judgeSubtask s b with
      | .error u => .error u
      | .ok (sv, bs) => judgeGo rest (acc.add_subtask_verdict sv) bs

/-- Method `Problem.judge_exec(exec_path)`: judges every subtask starting from a
fresh `ProblemVerdict`.  `prevOut` is the initial contents of the scratch
output file. -/
def judge_exec (subs : List SubtaskSpec) (prevOut : Bytes) :
    Except Unit ProblemVerdict :=
  judgeGo subs ProblemVerdict.empty prevOut

/-- Number of `AC` test verdicts in a list (`count of Accepted tests`). -/
def countAC (l : List TestVerdict) : Nat :=
  (l.filter (fun tv => tv.verdict = .AC)).length

/-! ## Test discovery: `Subtask.walk_folder` -/

/-- Index of the last `'.'` in a character list (`str.rfind('.')`),
`none` when there is no dot. -/
def lastDotIdx : List Char → Option Nat
  | [] => none
  | c :: rest =>
    match lastDotIdx rest with
    | some i => some (i + 1)
    | none => if c = '.' then some 0 else none

/-- Python `pathlib.PurePath.suffix`: the substring from the last dot to the end,
provided that dot is neither the first nor the last character of the name;
otherwise the empty string. -/
def pySuffix (s : String) : String :=
  match lastDotIdx s.toList with
  | none => ""
  | some i =>
    if 0 < i ∧ i + 1 < s.toList.length then String.mk (s.toList.drop i)
    else ""

/-- The name component of `pathlib.PurePath.with_suffix`: drop the old
suffix (as computed by `pySuffix`, i.e. only the final extension) if there
is one, then append the new suffix. -/
def pyWithSuffixName (name suf : String) : String :=
  let old := pySuffix name
  if old = "" then name ++ suf
  else String.mk (name.toList.take (name.toList.length - old.toList.length)) ++ suf

/-- The source expression `path.name[:path.name.find('.')]`: the filename truncated at its FIRST
dot (line 162 of the source).  When the name has no dot, Python's
`find` returns `-1` and `name[:-1]` drops the last character; that case is
unreachable in `walk_folder` because the suffix check guarantees a dot. -/
def test_name_of (name : String) : String :=
  match name.toList.findIdx? (fun c => c = '.') with
  | some i => String.mk (name.toList.take i)
  | none => String.mk (name.toList.take (name.toList.length - 1))

/-- A directory tree as `walk_folder` traverses it: `path.is_dir()`
distinguishes the two cases, and `path.iterdir()` yields the children of a
directory in the order the filesystem enumerates them (`iterdir` does not
sort). -/
inductive FSTree where
  | file (name : String)
  | dir (name : String) (children : List FSTree)

/-- The source's `Test.__init__(tests_path, input, output, subtask_id)`:
records `input_path = tests_path / input` and
`output_path = tests_path / output`.  Paths are modelled as component
lists; `parent` is the `tests_path` argument (`path.parent` at the call
site). -/
structure Test where
  parent : List String
  input : String
  output : String
  subtask_id : Nat
deriving DecidableEq, Repr

/-- Field `self.input_path` of a `Test`. -/
def Test.input_path (t : Test) : List String := t.parent ++ [t.input]

/-- Field `self.output_path` of a `Test`. -/
def Test.output_path (t : Test) : List String := t.parent ++ [t.output]

/-- The fields of `Subtask` that `walk_folder` reads, plus an existence
oracle for the enclosing filesystem: `rmatch` is
`self.compiled_regex.match(path.name)` viewed as a Boolean, and
`ex parent name` is `(parent / name).exists()`. -/
structure WalkCtx where
  rmatch : String → Bool
  input_suffix : String
  output_suffix : String
  subtask_id : Nat
  ex : List String → String → Bool

/-- The file branch of `walk_folder` (lines 161-171 of the source): if the
filename matches the regex and its (final) suffix is `'.' + input_suffix`,
compute `test_name` by first-dot truncation and the expected-output path by
`with_suffix('.' + output_suffix)`; if that output file exists, produce the
`Test` (named from `test_name`), otherwise produce the warning
`"Output not found for input %s" % test_name`. -/
def processFile (ctx : WalkCtx) (parent : List String) (name : String) :
    Option Test × Option String :=
  if ctx.rmatch name = true ∧ pySuffix name = "." ++ ctx.input_suffix then
    let test_name := test_name_of name
    let outName := pyWithSuffixName name ("." ++ ctx.output_suffix)
    if ctx.ex parent outName = true then
      (some ⟨parent, test_name ++ "." ++ ctx.input_suffix,
             test_name ++ "." ++ ctx.output_suffix, ctx.subtask_id⟩, none)
    else
      (none, some ("Output not found for input " ++ test_name))
  else (none, none)

mutual
/-- Method `Subtask.walk_folder(path)`: recurse through directories in `iterdir`
order, process files; returns the `Test`s appended to `self.tests` and the
warnings printed by `verification_failed`, in order. -/
def walk_folder (ctx : WalkCtx) (parent : List String) :
    FSTree → List Test × List String
  | .file n =>
    let r := processFile ctx parent n
    (r.1.toList, r.2.toList)
  | .dir n cs => walk_list ctx (parent ++ [n]) cs

/-- The `for child in path.iterdir()` loop of `walk_folder`. -/
def walk_list (ctx : WalkCtx) (parent : List String) :
    List FSTree → List Test × List String
  | [] => ([], [])
  | t :: ts =>
    let a := walk_folder ctx parent t
    let b := walk_list ctx parent ts
    (a.1 ++ b.1, a.2 ++ b.2)
end

mutual
/-- Depth-first enumeration (in `iterdir` order) of the files of a tree,
as `(parent directory, filename)` pairs. -/
def filesOf (parent : List String) : FSTree → List (List String × String)
  | .file n => [(parent, n)]
  | .dir n cs => filesOfList (parent ++ [n]) cs

/-- Extension of `filesOf` to a list of children. -/
def filesOfList (parent : List String) :
    List FSTree → List (List String × String)
  | [] => []
  | t :: ts => filesOf parent t ++ filesOfList parent ts
end


/-! ## Concrete test environments used by the witnesses -/

/-- A test whose run exits 0, prints nothing, and passes the checker. -/
def env_ok (nm : String) : TestEnv := ⟨nm, .exited 0 [], 0, 0, .exited 0⟩

/-- A test whose run exits 0, prints nothing, and fails the checker. -/
def env_wa (nm : String) : TestEnv := ⟨nm, .exited 0 [], 0, 0, .exited 1⟩

/-- A test whose run hits the wall-clock time limit. -/
def env_tl : TestEnv := ⟨"tl", .timedOut, 0, 0, .exited 0⟩

/-- A test whose run exits 1 after printing the byte `42`. -/
def env_re : TestEnv := ⟨"re", .exited 1 [42], 0, 0, .exited 0⟩

/-- A test whose run exits 0 after printing the byte `7`. -/
def env_out7 : TestEnv := ⟨"t1", .exited 0 [7], 0, 0, .exited 0⟩

/-- A test on which invoking the checker itself fails. -/
def env_badchecker : TestEnv := ⟨"bc", .exited 0 [], 0, 0, .invokeFailure⟩

/-- The 4-test subtask worth 20 points of the spec's concrete scenario:
three accepted tests and one rejected one. -/
def s4 : SubtaskSpec := ⟨1, 20, [env_ok "t1", env_ok "t2", env_ok "t3", env_wa "t4"]⟩

/-- The subtask verdict `judge_exec` produces for `s4`. -/
def sv4 : SubtaskVerdict :=
  ⟨1, [⟨.AC, 0, "t1"⟩, ⟨.AC, 0, "t2"⟩, ⟨.AC, 0, "t3"⟩, ⟨.WA, 0, "t4"⟩], 15⟩

/-- All `add_subtask_verdict` calls of one judging run, in order, starting
from a given `ProblemVerdict`. -/
def addAll (init : ProblemVerdict) (l : List SubtaskVerdict) : ProblemVerdict :=
  l.foldl ProblemVerdict.add_subtask_verdict init

/-- A concrete subtask verdict worth 5 points. -/
def sva : SubtaskVerdict := ⟨1, [], 5⟩

/-- A concrete subtask verdict worth 7 points. -/
def svb : SubtaskVerdict := ⟨2, [], 7⟩

/-- A discovery context whose regex matches everything and whose
filesystem contains every queried output file. -/
def ctxAll : WalkCtx := ⟨fun _ => true, "inp", "out", 1, fun _ _ => true⟩

/-- A test directory whose filesystem enumeration yields `b.inp` before
`a.inp`. -/
def treeBA : FSTree := .dir "tests" [.file "b.inp", .file "a.inp"]

/-- The same directory contents enumerated in the other order. -/
def treeAB : FSTree := .dir "tests" [.file "a.inp", .file "b.inp"]

/-! ## Order-preservation of the discovery traversal -/

mutual
/-- Unfolding lemma: `walk_folder` is the order-preserving `filterMap` of `processFile`
over the depth-first file enumeration. -/
theorem walk_folder_eq (ctx : WalkCtx) (parent : List String) (t : FSTree) :
    walk_folder ctx parent t =
      ((filesOf parent t).filterMap (fun pn => (processFile ctx pn.1 pn.2).1),
       (filesOf parent t).filterMap (fun pn => (processFile ctx pn.1 pn.2).2)) := by
  cases t with
  | file n =>
    simp only [walk_folder, filesOf, List.filterMap_cons, List.filterMap_nil]
    cases h1 : (processFile ctx parent n).1 <;> cases h2 : (processFile ctx parent n).2 <;>
      simp [Option.toList]
  | dir n cs =>
    simp only [walk_folder, filesOf]
    exact walk_list_eq ctx (parent ++ [n]) cs

/-- Unfolding lemma: `walk_list` is the order-preserving `filterMap` of `processFile`
over the depth-first file enumeration of the children. -/
theorem walk_list_eq (ctx : WalkCtx) (parent : List String) (l : List FSTree) :
    walk_list ctx parent l =
      ((filesOfList parent l).filterMap (fun pn => (processFile ctx pn.1 pn.2).1),
       (filesOfList parent l).filterMap (fun pn => (processFile ctx pn.1 pn.2).2)) := by
  cases l with
  | nil => simp [walk_list, filesOfList]
  | cons t ts =>
    simp only [walk_list, filesOfList, List.filterMap_append]
    rw [walk_folder_eq ctx parent t, walk_list_eq ctx parent ts]
end

/-! ## Helper lemmas about the judging fold -/

theorem judgeTest_timedOut (prev : Bytes) (e : TestEnv)
    (h : e.outcome = .timedOut) :
    judgeTest prev e = .ok (⟨.TL, -1, e.input_name⟩, 0, prev) := by
  simp [judgeTest, run_code, h]

theorem judgeTest_re (prev : Bytes) (e : TestEnv) (c : Int) (out : Bytes)
    (h : e.outcome = .exited c out) (hc : c ≠ 0) :
    judgeTest prev e = .ok (⟨.RE, e.t1 - e.t0, e.input_name⟩, 0, out) := by
  simp [judgeTest, run_code, h, hc]

theorem judgeTest_ac (prev : Bytes) (e : TestEnv) (out : Bytes)
    (h : e.outcome = .exited 0 out) (hc : verify_output e.check = .ok true) :
    judgeTest prev e = .ok (⟨.AC, e.t1 - e.t0, e.input_name⟩, 1, out) := by
  simp [judgeTest, run_code, h, hc]

theorem judgeTest_wa (prev : Bytes) (e : TestEnv) (out : Bytes)
    (h : e.outcome = .exited 0 out) (hc : verify_output e.check = .ok false) :
    judgeTest prev e = .ok (⟨.WA, e.t1 - e.t0, e.input_name⟩, 0, out) := by
  simp [judgeTest, run_code, h, hc]

theorem judgeTest_err (prev : Bytes) (e : TestEnv) (out : Bytes)
    (h : e.outcome = .exited 0 out) (hc : verify_output e.check = .error ()) :
    judgeTest prev e = .error () := by
  simp [judgeTest, run_code, h, hc]

theorem judgeTest_ok_verdict (prev : Bytes) (e : TestEnv) (tv : TestVerdict)
    (k : Nat) (b : Bytes) (h : judgeTest prev e = .ok (tv, k, b)) :
    tv.verdict ≠ .UNKNOWN ∧ k = (if tv.verdict = .AC then 1 else 0) := by
  cases ho : e.outcome with
  | timedOut =>
    rw [judgeTest_timedOut prev e ho] at h
    simp only [Except.ok.injEq, Prod.mk.injEq] at h
    obtain ⟨h1, h2, h3⟩ := h
    subst h1 h2
    simp
  | exited c out =>
    by_cases hc : c = 0
    · subst hc
      cases hch : verify_output e.check with
      | error u =>
        cases u
        rw [judgeTest_err prev e out ho hch] at h
        exact absurd h (by simp)
      | ok bb =>
        cases bb with
        | true =>
          rw [judgeTest_ac prev e out ho hch] at h
          simp only [Except.ok.injEq, Prod.mk.injEq] at h
          obtain ⟨h1, h2, h3⟩ := h
          subst h1 h2
          simp
        | false =>
          rw [judgeTest_wa prev e out ho hch] at h
          simp only [Except.ok.injEq, Prod.mk.injEq] at h
          obtain ⟨h1, h2, h3⟩ := h
          subst h1 h2
          simp
    · rw [judgeTest_re prev e c out ho hc] at h
      simp only [Except.ok.injEq, Prod.mk.injEq] at h
      obtain ⟨h1, h2, h3⟩ := h
      subst h1 h2
      simp

theorem countAC_cons (tv : TestVerdict) (l : List TestVerdict) :
    countAC (tv :: l) = (if tv.verdict = .AC then 1 else 0) + countAC l := by
  simp only [countAC, List.filter_cons]
  by_cases h : tv.verdict = .AC <;> simp [h, Nat.add_comm]

theorem judgeTests_spec : ∀ (es : List TestEnv) (prev : Bytes)
    (tvs : List TestVerdict) (k : Nat) (b : Bytes),
    judgeTests prev es = .ok (tvs, k, b) →
    tvs.length = es.length ∧ k = countAC tvs ∧
      ∀ tv ∈ tvs, tv.verdict ≠ .UNKNOWN := by
  intro es
  induction es with
  | nil =>
    intro prev tvs k b h
    simp only [judgeTests, Except.ok.injEq, Prod.mk.injEq] at h
    obtain ⟨h1, h2, h3⟩ := h
    subst h1 h2
    simp [countAC]
  | cons e es ih =>
    intro prev tvs k b h
    rw [judgeTests] at h
    cases hjt : judgeTest prev e with
    | error u => rw [hjt] at h; exact absurd h (by simp)
    | ok trip =>
      obtain ⟨tv, k1, b1⟩ := trip
      rw [hjt] at h
      dsimp only at h
      cases hrest : judgeTests b1 es with
      | error u => rw [hrest] at h; exact absurd h (by simp)
      | ok trip2 =>
        obtain ⟨tvs2, k2, b2⟩ := trip2
        rw [hrest] at h
        simp only [Except.ok.injEq, Prod.mk.injEq] at h
        obtain ⟨h1, h2, h3⟩ := h
        subst h1 h2 h3
        obtain ⟨hne, hk1⟩ := judgeTest_ok_verdict prev e tv k1 b1 hjt
        obtain ⟨hl, hk2, hmem⟩ := ih b1 tvs2 k2 b2 hrest
        refine ⟨by simp [hl], ?_, ?_⟩
        · rw [countAC_cons, hk1, hk2]
        · intro tv2 hm
          rcases List.mem_cons.mp hm with rfl | hm2
          · exact hne
          · exact hmem tv2 hm2

/-! ## Claims C1-C5 -/

/-- C1: For every test judged by `judge_exec`, the raw outcome of `run_code`
maps to the verdict exactly as: timeout → `TL`, non-zero exit → `RE`, clean
zero exit → inconclusive, resolved by `verify_output` to `AC` on `true`
and `WA` on `false`; and every `TestVerdict` recorded in a `SubtaskVerdict`
carries a terminal verdict, never `UNKNOWN`. -/
theorem judge_verdict_mapping :
    (∀ (prev : Bytes) (e : TestEnv) (tv : TestVerdict) (k : Nat) (b : Bytes),
      judgeTest prev e = .ok (tv, k, b) →
        (e.outcome = .timedOut → tv.verdict = .TL) ∧
        (∀ (c : Int) (out : Bytes), e.outcome = .exited c out → c ≠ 0 →
          tv.verdict = .RE) ∧
        (∀ out : Bytes, e.outcome = .exited 0 out →
          ((verify_output e.check = .ok true ∧ tv.verdict = .AC) ∨
           (verify_output e.check = .ok false ∧ tv.verdict = .WA))) ∧
        tv.verdict ≠ .UNKNOWN) ∧
    (∀ (s : SubtaskSpec) (prev : Bytes) (sv : SubtaskVerdict) (b : Bytes),
      judgeSubtask s prev = .ok (sv, b) →
        ∀ tv ∈ sv.test_verdicts, tv.verdict ≠ .UNKNOWN) := by
  constructor
  · intro prev e tv k b h
    refine ⟨?_, ?_, ?_, (judgeTest_ok_verdict prev e tv k b h).1⟩
    · intro ho
      rw [judgeTest_timedOut prev e ho] at h
      simp only [Except.ok.injEq, Prod.mk.injEq] at h
      rw [← h.1]
    · intro c out ho hc
      rw [judgeTest_re prev e c out ho hc] at h
      simp only [Except.ok.injEq, Prod.mk.injEq] at h
      rw [← h.1]
    · intro out ho
      cases hch : verify_output e.check with
      | error u =>
        cases u
        rw [judgeTest_err prev e out ho hch] at h
        exact absurd h (by simp)
      | ok bb =>
        cases bb with
        | true =>
          left
          rw [judgeTest_ac prev e out ho hch] at h
          simp only [Except.ok.injEq, Prod.mk.injEq] at h
          exact ⟨rfl, by rw [← h.1]⟩
        | false =>
          right
          rw [judgeTest_wa prev e out ho hch] at h
          simp only [Except.ok.injEq, Prod.mk.injEq] at h
          exact ⟨rfl, by rw [← h.1]⟩
  · intro s prev sv b h
    unfold judgeSubtask at h
    cases hjt : judgeTests prev s.envs with
    | error u => rw [hjt] at h; exact absurd h (by simp)
    | ok trip =>
      obtain ⟨tvs, correct, b2⟩ := trip
      rw [hjt] at h
      simp only [Except.ok.injEq, Prod.mk.injEq] at h
      obtain ⟨h1, h2⟩ := h
      rw [← h1]
      exact (judgeTests_spec s.envs prev tvs correct b2 hjt).2.2

/-- Witness for C1 at a concrete timed-out test. -/
theorem judge_verdict_mapping_witness :
    (⟨.TL, -1, "tl"⟩ : TestVerdict).verdict ≠ .UNKNOWN :=
  (judge_verdict_mapping.1 [] env_tl ⟨.TL, -1, "tl"⟩ 0 []
    (judgeTest_timedOut [] env_tl rfl)).2.2.2

/-- C2: for every subtask with at least one test, the score computed by
`judge_exec` is `(number of AC tests / total tests) * subtask.score`. -/
theorem subtask_partial_credit (s : SubtaskSpec) (prev : Bytes)
    (sv : SubtaskVerdict) (b : Bytes) (hne : s.envs ≠ [])
    (h : judgeSubtask s prev = .ok (sv, b)) :
    sv.test_verdicts ≠ [] ∧
    sv.test_verdicts.length = s.envs.length ∧
    sv.score = (countAC sv.test_verdicts : ℚ) /
      (sv.test_verdicts.length : ℚ) * s.score := by
  unfold judgeSubtask at h
  cases hjt : judgeTests prev s.envs with
  | error u => rw [hjt] at h; exact absurd h (by simp)
  | ok trip =>
    obtain ⟨tvs, correct, b2⟩ := trip
    rw [hjt] at h
    simp only [Except.ok.injEq, Prod.mk.injEq] at h
    obtain ⟨h1, h2⟩ := h
    obtain ⟨hl, hk, _⟩ := judgeTests_spec s.envs prev tvs correct b2 hjt
    subst h2
    rw [← h1]
    dsimp only
    refine ⟨?_, hl, ?_⟩
    · intro hnil
      rw [hnil, List.length_nil] at hl
      exact hne (List.length_eq_zero.mp hl.symm)
    · rw [hk, ← hl]

/-- Witness for C2: the concrete 4-test, 20-point scenario scores 15. -/
theorem subtask_partial_credit_witness :
    sv4.score = (countAC sv4.test_verdicts : ℚ) /
      (sv4.test_verdicts.length : ℚ) * s4.score ∧
    sv4.score = 15 := by
  have h : judgeSubtask s4 [] = .ok (sv4, []) := by
    simp only [judgeSubtask, judgeTests, judgeTest, run_code, verify_output,
      s4, env_ok, env_wa, sv4]
    norm_num
  exact ⟨(subtask_partial_credit s4 [] sv4 [] (by simp [s4]) h).2.2, rfl⟩

theorem addAll_spec : ∀ (l : List SubtaskVerdict) (init : ProblemVerdict),
    (addAll init l).verdicts = init.verdicts ++ l ∧
    (addAll init l).total_score =
      init.total_score + (l.map (fun v => v.score)).sum := by
  intro l
  induction l with
  | nil => intro init; simp [addAll]
  | cons v vs ih =>
    intro init
    obtain ⟨h1, h2⟩ := ih (init.add_subtask_verdict v)
    constructor
    · rw [addAll, List.foldl_cons, ← addAll, h1]
      simp [ProblemVerdict.add_subtask_verdict]
    · rw [addAll, List.foldl_cons, ← addAll, h2]
      simp [ProblemVerdict.add_subtask_verdict, add_assoc]

/-- C3: after any sequence of `add_subtask_verdict` calls on a fresh
`ProblemVerdict`, `total_score` equals the sum of the scores of the
`SubtaskVerdict`s it holds, exactly and hence within `EPS`, and the total
is independent of the order in which the subtask verdicts were added. -/
theorem total_score_is_sum (l l2 : List SubtaskVerdict) (hp : l.Perm l2) :
    (addAll ProblemVerdict.empty l).total_score =
      (((addAll ProblemVerdict.empty l).verdicts).map (fun v => v.score)).sum ∧
    |(addAll ProblemVerdict.empty l).total_score -
      (((addAll ProblemVerdict.empty l).verdicts).map (fun v => v.score)).sum| < EPS ∧
    (addAll ProblemVerdict.empty l).total_score =
      (addAll ProblemVerdict.empty l2).total_score := by
  obtain ⟨hv, ht⟩ := addAll_spec l ProblemVerdict.empty
  obtain ⟨hv2, ht2⟩ := addAll_spec l2 ProblemVerdict.empty
  have hsum : (addAll ProblemVerdict.empty l).total_score =
      (l.map (fun v => v.score)).sum := by
    rw [ht]; simp [ProblemVerdict.empty]
  have heq : (addAll ProblemVerdict.empty l).total_score =
      (((addAll ProblemVerdict.empty l).verdicts).map (fun v => v.score)).sum := by
    rw [hsum, hv]; simp [ProblemVerdict.empty]
  refine ⟨heq, ?_, ?_⟩
  · rw [← heq]
    simp only [sub_self, abs_zero]
    rw [EPS]
    norm_num
  · rw [hsum, ht2]
    simp only [ProblemVerdict.empty]
    rw [zero_add]
    exact (hp.map (fun v => v.score)).sum_eq

/-- Witness for C3 at a two-element permutation. -/
theorem total_score_is_sum_witness :
    (addAll ProblemVerdict.empty [sva, svb]).total_score =
      (addAll ProblemVerdict.empty [svb, sva]).total_score :=
  (total_score_is_sum [sva, svb] [svb, sva] (List.Perm.swap svb sva [])).2.2

/-- C4: a timed-out run reports the negative sentinel `-1` as its CPU time;
a run that does not time out reports the non-negative difference of the two
samples of the monotonically non-decreasing cumulative children-CPU-time
counter, so the sentinel never equals a genuinely measured time. -/
theorem timeout_sentinel (e : TestEnv) (prev : Bytes) :
    (e.outcome = .timedOut →
      (run_code e prev).1.verdict = .TL ∧
      (run_code e prev).1.exec_time = -1 ∧
      (run_code e prev).1.exec_time < 0) ∧
    (e.outcome ≠ .timedOut → e.t0 ≤ e.t1 →
      (run_code e prev).1.exec_time = e.t1 - e.t0 ∧
      0 ≤ (run_code e prev).1.exec_time ∧
      (run_code e prev).1.exec_time ≠ (-1 : ℚ)) := by
  constructor
  · intro h
    refine ⟨by simp [run_code, h], by simp [run_code, h], ?_⟩
    simp only [run_code, h]
    norm_num
  · intro h hle
    cases ho : e.outcome with
    | timedOut => exact absurd ho h
    | exited c out =>
      have hts : (run_code e prev).1.exec_time = e.t1 - e.t0 := by
        by_cases hc : c = 0 <;> simp [run_code, ho, hc]
      refine ⟨hts, ?_, ?_⟩
      · rw [hts]; linarith
      · rw [hts]; intro hq; linarith [hq.ge]

/-- Witness for C4: a timed-out run and a completed run. -/
theorem timeout_sentinel_witness :
    (run_code env_tl []).1.exec_time = -1 ∧
    0 ≤ (run_code (env_ok "t") []).1.exec_time :=
  ⟨((timeout_sentinel env_tl []).1 rfl).2.1,
   ((timeout_sentinel (env_ok "t") []).2 (by simp [env_ok]) le_rfl).2.1⟩

/-- C5: whenever the child process runs to completion (zero or non-zero
exit status), `run_code` writes the captured stdout bytes to the output
file before returning; in particular the file is written even when the
verdict is `RE`. -/
theorem run_code_writes_output (e : TestEnv) (prev : Bytes) (c : Int)
    (out : Bytes) (h : e.outcome = .exited c out) :
    (run_code e prev).2 = out ∧
    (c ≠ 0 → (run_code e prev).1.verdict = .RE ∧ (run_code e prev).2 = out) := by
  by_cases hc : c = 0 <;> simp [run_code, h, hc]

/-- Witness for C5 at a run exiting 1 with output byte `42`. -/
theorem run_code_writes_output_witness :
    (run_code env_re []).2 = [42] ∧ (run_code env_re []).1.verdict = .RE :=
  ⟨(run_code_writes_output env_re [] 1 [42] rfl).1,
   ((run_code_writes_output env_re [] 1 [42] rfl).2 one_ne_zero).1⟩

/-! ## Abort propagation of a checker invocation failure -/

theorem judgeTest_abort (prev : Bytes) (e : TestEnv) (out : Bytes)
    (h1 : e.outcome = .exited 0 out) (h2 : e.check = .invokeFailure) :
    judgeTest prev e = .error () :=
  judgeTest_err prev e out h1 (by rw [h2]; rfl)

theorem judgeTests_abort : ∀ (es : List TestEnv) (e : TestEnv), e ∈ es →
    (∀ p : Bytes, judgeTest p e = .error ()) →
    ∀ prev : Bytes, judgeTests prev es = .error () := by
  intro es
  induction es with
  | nil => intro e hm; cases hm
  | cons f fs ih =>
    intro e hm hf prev
    rcases List.mem_cons.mp hm with rfl | hm2
    · rw [judgeTests, hf prev]
    · cases hjt : judgeTest prev f with
      | error u => cases u; rw [judgeTests, hjt]
      | ok trip =>
        obtain ⟨tv, k, b⟩ := trip
        rw [judgeTests, hjt]
        dsimp only
        rw [ih e hm2 hf b]

theorem judgeSubtask_abort (s : SubtaskSpec) (e : TestEnv) (he : e ∈ s.envs)
    (hf : ∀ p : Bytes, judgeTest p e = .error ()) :
    ∀ prev : Bytes, judgeSubtask s prev = .error () := by
  intro prev
  rw [judgeSubtask, judgeTests_abort s.envs e he hf prev]

theorem judgeGo_abort : ∀ (subs : List SubtaskSpec) (s : SubtaskSpec),
    s ∈ subs → (∀ p : Bytes, judgeSubtask s p = .error ()) → s.envs ≠ [] →
    ∀ (acc : ProblemVerdict) (prev : Bytes),
      judgeGo subs acc prev = .error () := by
  intro subs
  induction subs with
  | nil => intro s hm; cases hm
  | cons g gs ih =>
    intro s hm hs hne acc prev
    rcases List.mem_cons.mp hm with rfl | hm2
    · have hlen : ¬ s.envs.length = 0 := by
        intro h0
        exact hne (List.length_eq_zero.mp h0)
      rw [judgeGo, if_neg hlen, hs prev]
    · by_cases hg : g.envs.length = 0
      · rw [judgeGo, if_pos hg]
        exact ih s hm2 hs hne acc prev
      · rw [judgeGo, if_neg hg]
        cases hj : judgeSubtask g prev with
        | error u => cases u; rfl
        | ok pr =>
          obtain ⟨sv, b⟩ := pr
          dsimp only
          exact ih s hm2 hs hne (acc.add_subtask_verdict sv) b

/-! ## Claims C7 and C10 -/

/-- C7: `verify_output` returns `false` only when the checker process
itself exits with a non-zero status; a failure to invoke the checker at all
is never converted into a `false` (WrongAnswer) result and instead aborts
the judging run for the package. -/
theorem checker_error_handling :
    (∀ r : CheckCallResult,
      verify_output r = .ok false ↔ ∃ c : Int, c ≠ 0 ∧ r = .exited c) ∧
    verify_output .invokeFailure = .error () ∧
    (∀ (subs : List SubtaskSpec) (s : SubtaskSpec) (e : TestEnv)
        (out : Bytes) (prev : Bytes),
      s ∈ subs → e ∈ s.envs → e.outcome = .exited 0 out →
      e.check = .invokeFailure → judge_exec subs prev = .error ()) := by
  refine ⟨?_, rfl, ?_⟩
  · intro r
    constructor
    · intro h
      cases r with
      | exited c =>
        by_cases hc : c = 0
        · subst hc; exact absurd h (by simp [verify_output])
        · exact ⟨c, hc, rfl⟩
      | invokeFailure => exact absurd h (by simp [verify_output])
    · rintro ⟨c, hc, rfl⟩
      simp [verify_output, hc]
  · intro subs s e out prev hm he ho hc
    exact judgeGo_abort subs s hm
      (judgeSubtask_abort s e he (fun p => judgeTest_abort p e out ho hc))
      (List.ne_nil_of_mem he) ProblemVerdict.empty prev

/-- Witness for C7: one subtask, one exited-0 test whose checker cannot be
invoked, aborts the whole `judge_exec`. -/
theorem checker_error_handling_witness :
    judge_exec [⟨1, 10, [env_badchecker]⟩] [] = .error () :=
  checker_error_handling.2.2 [⟨1, 10, [env_badchecker]⟩]
    ⟨1, 10, [env_badchecker]⟩ env_badchecker [] []
    (List.mem_singleton.mpr rfl) (List.mem_singleton.mpr rfl) rfl rfl

/-- C10: a timed-out run performs no write to the scratch output file (the
single path `./tmp/out` reused by every test of a judging run, modelled as
the byte state threaded through `judgeTests`), so after a timed-out test
the file still holds the bytes produced by the previous completed run. -/
theorem timeout_scratch_file_unchanged :
    (∀ (e : TestEnv) (prev : Bytes), e.outcome = .timedOut →
      (run_code e prev).2 = prev) ∧
    (∀ (prev : Bytes) (es : List TestEnv) (e : TestEnv)
        (tvs tvs2 : List TestVerdict) (k k2 : Nat) (b b2 : Bytes),
      e.outcome = .timedOut →
      judgeTests prev es = .ok (tvs, k, b) →
      judgeTests prev (es ++ [e]) = .ok (tvs2, k2, b2) →
      b2 = b ∧ tvs2 = tvs ++ [⟨.TL, -1, e.input_name⟩] ∧ k2 = k) := by
  constructor
  · intro e prev h
    simp [run_code, h]
  · intro prev es
    induction es generalizing prev with
    | nil =>
      intro e tvs tvs2 k k2 b b2 ho h1 h2
      simp only [judgeTests, Except.ok.injEq, Prod.mk.injEq] at h1
      obtain ⟨ha, hb, hc⟩ := h1
      subst ha hb hc
      rw [List.nil_append, judgeTests, judgeTest_timedOut prev e ho] at h2
      dsimp only at h2
      rw [judgeTests] at h2
      simp only [Except.ok.injEq, Prod.mk.injEq] at h2
      obtain ⟨ha2, hb2, hc2⟩ := h2
      subst ha2 hb2 hc2
      simp
    | cons f fs ih =>
      intro e tvs tvs2 k k2 b b2 ho h1 h2
      rw [judgeTests] at h1
      rw [List.cons_append, judgeTests] at h2
      cases hjt : judgeTest prev f with
      | error u => rw [hjt] at h1; exact absurd h1 (by simp)
      | ok trip =>
        obtain ⟨tv, k1, b1⟩ := trip
        rw [hjt] at h1 h2
        dsimp only at h1 h2
        cases hrest : judgeTests b1 fs with
        | error u => rw [hrest] at h1; exact absurd h1 (by simp)
        | ok trip2 =>
          obtain ⟨tvsr, kr, br⟩ := trip2
          rw [hrest] at h1
          simp only [Except.ok.injEq, Prod.mk.injEq] at h1
          obtain ⟨ha, hb, hc⟩ := h1
          subst ha hb hc
          cases hrest2 : judgeTests b1 (fs ++ [e]) with
          | error u => rw [hrest2] at h2; exact absurd h2 (by simp)
          | ok trip3 =>
            obtain ⟨tvsr2, kr2, br2⟩ := trip3
            rw [hrest2] at h2
            simp only [Except.ok.injEq, Prod.mk.injEq] at h2
            obtain ⟨ha2, hb2, hc2⟩ := h2
            subst ha2 hb2 hc2
            obtain ⟨hx, hy, hz⟩ :=
              ih b1 e tvsr tvsr2 kr kr2 br br2 ho hrest hrest2
            subst hx hy hz
            simp

/-- Witness for C10: after a completed run that printed byte `7`, a
timed-out run leaves the scratch bytes at `[7]`. -/
theorem timeout_scratch_file_unchanged_witness :
    judgeTests [9] ([env_out7] ++ [env_tl]) =
      .ok ([⟨.AC, 0, "t1"⟩, ⟨.TL, -1, "tl"⟩], 1, [7]) ∧
    ([7] : Bytes) = [7] := by
  have h1 : judgeTests [9] [env_out7] = .ok ([⟨.AC, 0, "t1"⟩], 1, [7]) := by
    simp only [judgeTests, judgeTest, run_code, verify_output, env_out7]
    norm_num
  have h2 : judgeTests [9] ([env_out7] ++ [env_tl]) =
      .ok ([⟨.AC, 0, "t1"⟩, ⟨.TL, -1, "tl"⟩], 1, [7]) := by
    simp only [judgeTests, judgeTest, run_code, verify_output, env_out7,
      env_tl, List.cons_append, List.nil_append]
    norm_num
    simp
  exact ⟨h2, (timeout_scratch_file_unchanged.2 [9] [env_out7] env_tl
    [⟨.AC, 0, "t1"⟩] [⟨.AC, 0, "t1"⟩, ⟨.TL, -1, "tl"⟩] 1 1 [7] [7]
    rfl h1 h2).1⟩

/-! ## Claims C6, C8, C9: test discovery -/

/-- C6: a file is added to a subtask as a `Test` iff its filename matches
the subtask's regex, its (final) extension equals the configured input
suffix, and the same-named file with the output suffix (final suffix
replaced, as `with_suffix` does) exists; when the output file is missing
the input is excluded and a warning is emitted instead — `walk_folder` is a
total function, so that condition never raises. -/
theorem discovery_membership_rule (ctx : WalkCtx) (parent : List String)
    (t : FSTree) :
    (walk_folder ctx parent t).1 =
      (filesOf parent t).filterMap (fun pn => (processFile ctx pn.1 pn.2).1) ∧
    (walk_folder ctx parent t).2 =
      (filesOf parent t).filterMap (fun pn => (processFile ctx pn.1 pn.2).2) ∧
    (∀ (p : List String) (n : String),
      ((processFile ctx p n).1.isSome = true ↔
        (ctx.rmatch n = true ∧ pySuffix n = "." ++ ctx.input_suffix ∧
         ctx.ex p (pyWithSuffixName n ("." ++ ctx.output_suffix)) = true))) ∧
    (∀ (p : List String) (n : String),
      ((processFile ctx p n).2.isSome = true ↔
        (ctx.rmatch n = true ∧ pySuffix n = "." ++ ctx.input_suffix ∧
         ¬ ctx.ex p (pyWithSuffixName n ("." ++ ctx.output_suffix)) = true))) := by
  refine ⟨?_, ?_, ?_, ?_⟩
  · rw [walk_folder_eq]
  · rw [walk_folder_eq]
  · intro p n
    by_cases h1 : ctx.rmatch n = true
    · by_cases h2 : pySuffix n = "." ++ ctx.input_suffix
      · by_cases h3 : ctx.ex p (pyWithSuffixName n ("." ++ ctx.output_suffix)) = true <;>
          simp [processFile, h1, h2, h3]
      · simp [processFile, h2]
    · simp [processFile, h1]
  · intro p n
    by_cases h1 : ctx.rmatch n = true
    · by_cases h2 : pySuffix n = "." ++ ctx.input_suffix
      · by_cases h3 : ctx.ex p (pyWithSuffixName n ("." ++ ctx.output_suffix)) = true <;>
          simp [processFile, h1, h2, h3]
      · simp [processFile, h2]
    · simp [processFile, h1]

/-- Witness for C6: a matching input with an existing output is added. -/
theorem discovery_membership_rule_witness :
    (processFile ctxAll [] "01.inp").1.isSome = true :=
  ((discovery_membership_rule ctxAll [] (.file "01.inp")).2.2.1 [] "01.inp").mpr
    ⟨rfl, by decide, rfl⟩

/-- C8 counterexample: the same directory contents (a permutation) can be
enumerated by the filesystem in a different order, and `walk_folder` just
follows `iterdir` order: it puts `b.inp` before `a.inp` (not lexical
order) and produces different ordered test lists for the two enumerations
of the same contents. -/
theorem discovery_not_lexical :
    (filesOf [] treeBA).Perm (filesOf [] treeAB) ∧
    ((walk_folder ctxAll [] treeBA).1.map (fun t => t.input)) =
      ["b.inp", "a.inp"] ∧
    "a.inp".toList < "b.inp".toList ∧
    walk_folder ctxAll [] treeBA ≠ walk_folder ctxAll [] treeAB :=
  ⟨by decide, by decide, by decide, by decide⟩

/-- C8 (amended): discovery is deterministic relative to the filesystem's
enumeration order: the test list is the order-preserving `filterMap` of the
depth-first `iterdir` enumeration, so two discovery runs over directory
contents enumerated identically produce the same ordered lists; no lexical
sorting is applied. -/
theorem discovery_preserves_iterdir_order (ctx : WalkCtx)
    (parent : List String) (t1 t2 : FSTree) :
    (walk_folder ctx parent t1).1 =
      (filesOf parent t1).filterMap (fun pn => (processFile ctx pn.1 pn.2).1) ∧
    (filesOf parent t1 = filesOf parent t2 →
      walk_folder ctx parent t1 = walk_folder ctx parent t2) := by
  constructor
  · rw [walk_folder_eq]
  · intro h
    rw [walk_folder_eq, walk_folder_eq, h]

/-- Witness for C8 (amended) at identical enumerations. -/
theorem discovery_preserves_iterdir_order_witness :
    walk_folder ctxAll [] treeAB = walk_folder ctxAll [] treeAB ∧
    (walk_folder ctxAll [] treeAB).1 =
      (filesOf [] treeAB).filterMap
        (fun pn => (processFile ctxAll pn.1 pn.2).1) :=
  ⟨(discovery_preserves_iterdir_order ctxAll [] treeAB treeAB).2 rfl,
   (discovery_preserves_iterdir_order ctxAll [] treeAB treeAB).1⟩

/-- C9: for an input filename with more than one dot, such as `a.b.inp`,
the logical test name is the filename truncated at its FIRST dot (`"a"`),
so the constructed `Test` records input `a.inp` and output `a.out` — which
differ from the matched file `a.b.inp` and from the output file `a.b.out`
whose existence was actually checked (`with_suffix` replaces only the
final suffix). -/
theorem multidot_test_paths_mismatch (rm : String → Bool)
    (exf : List String → String → Bool) (sid : Nat) (p : List String)
    (hr : rm "a.b.inp" = true) (hex : exf p "a.b.out" = true) :
    processFile ⟨rm, "inp", "out", sid, exf⟩ p "a.b.inp" =
      (some ⟨p, "a.inp", "a.out", sid⟩, none) ∧
    pyWithSuffixName "a.b.inp" ".out" = "a.b.out" ∧
    test_name_of "a.b.inp" = "a" ∧
    ("a.inp" : String) ≠ "a.b.inp" ∧ ("a.out" : String) ≠ "a.b.out" := by
  refine ⟨?_, by decide, by decide, by decide, by decide⟩
  have h1 : pySuffix "a.b.inp" = "." ++ ("inp" : String) := by decide
  have h2 : pyWithSuffixName "a.b.inp" ("." ++ ("out" : String)) = "a.b.out" := by
    decide
  have h3 : test_name_of "a.b.inp" = "a" := by decide
  simp only [processFile, hr, h1, h2, h3, hex]
  norm_num
  exact ⟨by decide, by decide⟩

/-- Witness for C9 at a regex matching everything and a filesystem
containing every file. -/
theorem multidot_test_paths_mismatch_witness :
    processFile ⟨(fun _ => true), "inp", "out", 3, (fun _ _ => true)⟩
        ["tests"] "a.b.inp" =
      (some ⟨["tests"], "a.inp", "a.out", 3⟩, none) ∧
    ("a.inp" : String) ≠ "a.b.inp" :=
  ⟨(multidot_test_paths_mismatch (fun _ => true) (fun _ _ => true) 3
      ["tests"] rfl rfl).1,
   (multidot_test_paths_mismatch (fun _ => true) (fun _ _ => true) 3
      ["tests"] rfl rfl).2.2.2.1⟩
